import Mathlib

/-!
Shallow embedding of the `make-sysroot` repository.

`src/lib.rs` implements a filtered recursive tree copier (`CopyBuilder` with
`is_file_newer`, `is_filesize_different` and `CopyBuilder::run`), and
`src/main.rs` implements the post-copy symlink relativizer (`make_relative`,
built on `pathdiff::diff_paths`).

Conventions of the embedding:
- a filesystem path is its list of components (`List String`); the textual
  form of the absolute path `/a/b` is `"/" ++ "a/b"`;
- the source tree is an inductive tree (`SNode`/`SForest`); walkdir's
  traversal (root first, parents before children, with
  `filter_entry (|e| e.path() != abs_dest)`) is `walkNode`;
- the destination tree is a finite association list from relative paths to
  nodes (`Fs`); `lstat` of a missing path is `none`;
- a node's metadata carries its `modified` time (`Option Nat`: `none` means
  `Metadata::modified()` returned `Err`) and its byte length (for files the
  content length, for symlinks the target length, as `lstat` reports);
- fallible operations return `Except String`; the clock is an explicit
  `now : Nat` (`SystemTime::now()`), the Unix epoch is `0`;
- symlink targets are opaque strings for the copier (it copies them
  literally); the relativizer works on structured paths (`RPath`) whose
  components (`Seg`) are `normal`, `..` or `.`, mirroring Rust
  `Path::components()`.
-/

/-- One step of Rust `str::contains`: does `needle` occur at some position of
the haystack? -/
def containsAux (needle : List Char) : List Char → Bool
  | [] => needle.isPrefixOf []
  | c :: rest => needle.isPrefixOf (c :: rest) || containsAux needle rest

/-- Rust `String::contains(&str)`: substring test on the textual form. -/
def strContains (hay needle : String) : Bool :=
  containsAux needle.data hay.data

/-- Textual form of an absolute path given by its components
(`Path::to_string_lossy`). -/
def pathString (p : List String) : String :=
  "/" ++ String.intercalate "/" p

/-- The part of `std::fs::Metadata` the copier reads: modification time
(`none` models `modified()` returning `Err`) and `len()`. -/
structure FMeta where
  modified : Option Nat
  len : Nat
deriving DecidableEq

/-- Core of `is_file_newer` (src/lib.rs:30-38) once both `symlink_metadata`
calls are resolved: on `(Ok, Ok)` compare
`meta_a.modified().unwrap_or_else(|_| SystemTime::now())
 > meta_b.modified().unwrap_or(SystemTime::UNIX_EPOCH)`; any metadata error
gives `false`. -/
def is_file_newer_meta (ma mb : Option FMeta) (now : Nat) : Bool :=
  match ma, mb with
  | some a, some b => decide (a.modified.getD now > b.modified.getD 0)
  | _, _ => false

/-- Core of `is_filesize_different` (src/lib.rs:41-46): on `(Ok, Ok)` compare
`meta_a.len() != meta_b.len()`; any metadata error gives `false`. -/
def is_filesize_different_meta (ma mb : Option FMeta) : Bool :=
  match ma, mb with
  | some a, some b => decide (a.len ≠ b.len)
  | _, _ => false

/-- A destination filesystem node. `dlen`/`olen` are the arbitrary sizes
`lstat` reports for directories / other node kinds. -/
inductive FNode where
  | file (content : List Nat) (modified : Option Nat) : FNode
  | dir (modified : Option Nat) (dlen : Nat) : FNode
  | symlink (target : String) (modified : Option Nat) : FNode
  | other (modified : Option Nat) (olen : Nat) : FNode
deriving DecidableEq

/-- `symlink_metadata` of a destination node (symlinks are not followed: a
symlink's length is the length of its target string, as on Linux). -/
def FNode.meta : FNode → FMeta
  | .file c m => ⟨m, c.length⟩
  | .dir m l => ⟨m, l⟩
  | .symlink t m => ⟨m, t.length⟩
  | .other m l => ⟨m, l⟩

/-- A finite filesystem: paths (component lists) to nodes. -/
abbrev Fs := List (List String × FNode)

/-- Look up a path; `none` models `symlink_metadata` returning `Err`
(no such file). -/
def fsLookup : Fs → List String → Option FNode
  | [], _ => none
  | (k, v) :: rest, q => if k = q then some v else fsLookup rest q

/-- Create or overwrite the node at a path. -/
def dstInsert : Fs → List String → FNode → Fs
  | [], k, v => [(k, v)]
  | (k', v') :: rest, k, v =>
    if k' = k then (k, v) :: rest else (k', v') :: dstInsert rest k v

/-- `is_file_newer` (src/lib.rs:30-38): `lstat` both paths in `fs`; on any
error return `false`, otherwise compare modification times with the
`unwrap_or` substitutions of the source. -/
def is_file_newer (fs : Fs) (now : Nat) (fileA fileB : List String) : Bool :=
  is_file_newer_meta ((fsLookup fs fileA).map FNode.meta)
    ((fsLookup fs fileB).map FNode.meta) now

/-- `is_filesize_different` (src/lib.rs:41-46). -/
def is_filesize_different (fs : Fs) (fileA fileB : List String) : Bool :=
  is_filesize_different_meta ((fsLookup fs fileA).map FNode.meta)
    ((fsLookup fs fileB).map FNode.meta)

/-- The configuration part of `CopyBuilder` (src/lib.rs:12-27); source and
destination are passed separately as component lists. -/
structure CopyBuilder where
  overwrite_all : Bool
  overwrite_if_newer : Bool
  overwrite_if_size_differs : Bool
  exclude_filters : List String
  include_filters : List String

mutual
/-- A source tree node, as walkdir sees it via `lstat`. -/
inductive SNode where
  | file (content : List Nat) (modified : Option Nat) : SNode
  | dir (children : SForest) (modified : Option Nat) (dlen : Nat) : SNode
  | symlink (target : String) (modified : Option Nat) : SNode
  | other (modified : Option Nat) (olen : Nat) : SNode

/-- The named children of a source directory. -/
inductive SForest where
  | nil : SForest
  | cons (name : String) (child : SNode) (rest : SForest) : SForest
end

/-- `entry.file_type().is_dir()` for a source entry. -/
def SNode.isDir : SNode → Bool
  | .dir _ _ _ => true
  | _ => false

/-- `symlink_metadata` of a source entry. -/
def SNode.meta : SNode → FMeta
  | .file c m => ⟨m, c.length⟩
  | .dir _ m l => ⟨m, l⟩
  | .symlink t m => ⟨m, t.length⟩
  | .other m l => ⟨m, l⟩

/-- The children a walk descends into: a directory's children, nothing for
any other node kind. -/
def SNode.childForest : SNode → SForest
  | .dir f _ _ => f
  | _ => .nil

mutual
/-- Walk the children of the directory at `p`, in order, skipping (as
walkdir's `filter_entry (|e| e.path() != abs_dest)` does) any node whose
absolute path equals `skipP` together with its whole subtree
(src/lib.rs:120-123). -/
def walkForest (skipP p : List String) : SForest → List (List String × SNode)
  | .nil => []
  | .cons name child rest =>
    walkNode skipP (p ++ [name]) child ++ walkForest skipP p rest

/-- The full walk of `WalkDir::new(&abs_source)` filtered by
`e.path() != abs_dest`: a skipped node contributes nothing (neither itself
nor its subtree); otherwise the node comes first, then its subtree, in
depth-first order. -/
def walkNode (skipP p : List String) (n : SNode) : List (List String × SNode) :=
  if p = skipP then []
  else
    (p, n) ::
      (match n with
       | .dir f _ _ => walkForest skipP p f
       | _ => [])
end

/-- The overwrite/filter decision of `CopyBuilder::run` for a non-directory
entry (src/lib.rs:130-194): early-out when the target exists and no
overwrite flag is set; skip on an exclude-filter match; skip when include
filters exist and none matches; then, if the destination exists, apply the
`overwrite_if_newer` check and the `overwrite_if_size_differs` check (each
skips unless its condition holds). `true` means the entry is copied
(materialized). -/
def copyDecision (cb : CopyBuilder) (pstr : String) (n : SNode)
    (dstNode : Option FNode) (now : Nat) : Bool :=
  if !cb.overwrite_all && dstNode.isSome && !cb.overwrite_if_newer
      && !cb.overwrite_if_size_differs then
    false
  else if cb.exclude_filters.any (fun f => strContains pstr f) then
    false
  else if !cb.include_filters.isEmpty
      && !(cb.include_filters.any (fun f => strContains pstr f)) then
    false
  else if dstNode.isSome && cb.overwrite_if_newer
      && !(is_file_newer_meta (some n.meta) (dstNode.map FNode.meta) now) then
    false
  else if dstNode.isSome && cb.overwrite_if_size_differs
      && !(is_filesize_different_meta (some n.meta) (dstNode.map FNode.meta)) then
    false
  else
    true

/-- The body of `CopyBuilder::run`'s loop for one walked entry
(src/lib.rs:125-219). The destination path of an entry is its path relative
to the source (`strip_prefix`), used as the key into the destination tree.
Non-directory entries go through `copyDecision` and are then materialized:
a file copy overwrites (but fails onto a directory, as `std::fs::copy`
does; copying through an existing destination symlink is modeled as
replacing the node), a symlink is created with `std::os::unix::fs::symlink`,
which fails with `EEXIST` when the destination path already exists, and any
other file type is only warned about. A directory entry ignores the filters
and flags entirely: if the destination is not already a directory it is
created with `create_dir_all` (which fails when the path exists as a
non-directory). -/
def processEntry (cb : CopyBuilder) (absSource : List String) (now : Nat)
    (dst : Fs) (p : List String) (n : SNode) : Except String Fs :=
  let relDest := p.drop absSource.length
  if !n.isDir then
    if copyDecision cb (pathString p) n (fsLookup dst relDest) now then
      match n with
      | .file c _ =>
        match fsLookup dst relDest with
        | some (.dir _ _) => .error ("Is a directory: " ++ pathString relDest)
        | _ => .ok (dstInsert dst relDest (.file c (some now)))
      | .symlink t _ =>
        match fsLookup dst relDest with
        | some _ => .error ("File exists (os error 17): " ++ pathString relDest)
        | none => .ok (dstInsert dst relDest (.symlink t (some now)))
      | .other _ _ => .ok dst
      | .dir _ _ _ => .ok dst
    else
      .ok dst
  else
    match fsLookup dst relDest with
    | some (.dir _ _) => .ok dst
    | some _ => .error ("create_dir_all failed: " ++ pathString relDest)
    | none => .ok (dstInsert dst relDest (.dir (some now) 0))

/-- Fold `processEntry` over the walked entries, aborting on the first
error (the `?` operators in the loop body). -/
def runEntries (cb : CopyBuilder) (absSource : List String) (now : Nat) :
    List (List String × SNode) → Fs → Except String Fs
  | [], dst => .ok dst
  | (p, n) :: rest, dst =>
    match processEntry cb absSource now dst p n with
    | .error e => .error e
    | .ok dst2 => runEntries cb absSource now rest dst2

/-- `if !self.destination.is_dir() { create_dir_all(&self.destination)? }`
(src/lib.rs:108-111) on the destination root. -/
def ensureDestDir (dst : Fs) (now : Nat) : Except String Fs :=
  match fsLookup dst [] with
  | some (.dir _ _) => .ok dst
  | some _ => .error "create_dir_all failed: destination is not a directory"
  | none => .ok (dstInsert dst [] (.dir (some now) 0))

/-- `CopyBuilder::run` (src/lib.rs:107-223): ensure the destination root
directory exists, then process every entry of the destination-skipping walk
of the source tree. `absSource` and `absDest` are the canonicalized roots;
`dst` is the destination tree keyed by paths relative to `absDest`. -/
def CopyBuilder.run (cb : CopyBuilder) (absSource absDest : List String)
    (src : SNode) (dst : Fs) (now : Nat) : Except String Fs :=
  match ensureDestDir dst now with
  | .error e => .error e
  | .ok dst1 => runEntries cb absSource now (walkNode absDest absSource src) dst1

/-- A path component as produced by Rust `Path::components()`: a normal
name, `..`, or `.`. -/
inductive Seg where
  | normal (s : String) : Seg
  | parent : Seg
  | cur : Seg
deriving DecidableEq

/-- Is this a normal (named) component? -/
def Seg.isNormal : Seg → Bool
  | .normal _ => true
  | _ => false

/-- A structured path: an `is_absolute` flag (Rust's `RootDir` head
component) plus the remaining components. -/
structure RPath where
  absolute : Bool
  comps : List Seg
deriving DecidableEq

/-- The component loop of `pathdiff::diff_paths`, transcribed arm by arm
(`comps` is the accumulator; pushing is appending). -/
def diffLoop (comps : List Seg) : List Seg → List Seg → Option (List Seg)
  | [], [] => some comps
  | a :: ita, [] => some (comps ++ a :: ita)
  | [], _ :: itb => diffLoop (comps ++ [Seg.parent]) [] itb
  | a :: ita, b :: itb =>
    if comps = [] ∧ a = b then diffLoop comps ita itb
    else if b = Seg.cur then diffLoop (comps ++ [a]) ita itb
    else if b = Seg.parent then none
    else some (comps ++ [Seg.parent] ++ itb.map (fun _ => Seg.parent) ++ a :: ita)

/-- `pathdiff::diff_paths(path, base)`: on mixed absoluteness return `path`
itself when it is absolute and `None` otherwise; with equal absoluteness
run the component loop (the two equal `RootDir` components of absolute
paths cancel in the first arm). -/
def diff_paths (path base : RPath) : Option RPath :=
  if path.absolute != base.absolute then
    if path.absolute then some path else none
  else
    (diffLoop [] path.comps base.comps).map (fun cs => RPath.mk false cs)

/-- Rust `Path::file_name()`: the final component when it is a normal
name. -/
def RPath.fileName (p : RPath) : Option String :=
  match p.comps.getLast? with
  | some (Seg.normal s) => some s
  | _ => none

/-- The error message `make_relative` produces when `diff_paths` returns
`None` (src/main.rs:128-130). -/
def relativizeErr : String :=
  "Failed to resolve absolute symlink target to a relative one"

/-- The body of `make_relative`'s loop (src/main.rs:117-134) for one symlink
entry: a relative target is left untouched; an absolute target is
reinterpreted under the sysroot (`sysroot_dir.join(target.strip_prefix("/"))`),
`diff_paths` computes the relative path between the parent directories
(`unwrap` on a missing parent is a panic), the original file name is
re-joined, and the resulting relative path is the rewritten target. -/
def make_relative_step (sysrootDir entryPath target : RPath) : Except String RPath :=
  if target.absolute then
    let real : RPath := ⟨sysrootDir.absolute, sysrootDir.comps ++ target.comps⟩
    if real.comps = [] then .error "panic: real_path.parent() is None"
    else if entryPath.comps = [] then .error "panic: entry.path().parent() is None"
    else
      match diff_paths ⟨real.absolute, real.comps.dropLast⟩
          ⟨entryPath.absolute, entryPath.comps.dropLast⟩ with
      | none => .error relativizeErr
      | some rel =>
        match real.fileName with
        | some fname => .ok ⟨rel.absolute, rel.comps ++ [Seg.normal fname]⟩
        | none => .error "panic: real_path.file_name() is None"
  else
    .ok target

/-- Textual resolution of one component against a directory stack: a name
descends, `..` pops, `.` stays. -/
def resolveStep (stack : List Seg) : Seg → List Seg
  | .normal s => stack ++ [Seg.normal s]
  | .parent => stack.dropLast
  | .cur => stack

/-- Resolve a relative path textually from a directory: the claim's notion
of "resolving the new target from the link's own containing directory". -/
def resolveFrom (dir rel : List Seg) : List Seg :=
  rel.foldl resolveStep dir

/-- Textual form of a component. -/
def segString : Seg → String
  | .normal s => s
  | .parent => ".."
  | .cur => "."

/-- Textual form of a structured path. -/
def rpathString (p : RPath) : String :=
  (if p.absolute then "/" else "") ++ String.intercalate "/" (p.comps.map segString)

/-- The path-filter acceptance of `CopyBuilder::run` (src/lib.rs:142-157):
no exclude filter occurs in the path's textual form, and the include list
is empty or some include filter occurs in it. -/
def passesFilters (cb : CopyBuilder) (pstr : String) : Bool :=
  !(cb.exclude_filters.any (fun f => strContains pstr f))
    && (cb.include_filters.isEmpty || cb.include_filters.any (fun f => strContains pstr f))

/-- All three overwrite flags are disabled (the builder's defaults). -/
def CopyBuilder.noOverwrite (cb : CopyBuilder) : Prop :=
  cb.overwrite_all = false ∧ cb.overwrite_if_newer = false
    ∧ cb.overwrite_if_size_differs = false

/-! Helper lemmas about the association-list filesystem. -/

theorem fsLookup_dstInsert_self (d : Fs) (k : List String) (v : FNode) :
    fsLookup (dstInsert d k v) k = some v := by
  induction d with
  | nil => simp [dstInsert, fsLookup]
  | cons hd tl ih =>
    obtain ⟨k', v'⟩ := hd
    by_cases h : k' = k
    · simp [dstInsert, fsLookup, h]
    · simp [dstInsert, fsLookup, h, ih]

theorem fsLookup_dstInsert_ne (d : Fs) (k q : List String) (v : FNode)
    (h : q ≠ k) : fsLookup (dstInsert d k v) q = fsLookup d q := by
  have h' : k ≠ q := Ne.symm h
  induction d with
  | nil => simp [dstInsert, fsLookup, h']
  | cons hd tl ih =>
    obtain ⟨k', v'⟩ := hd
    by_cases hk : k' = k
    · subst hk
      simp [dstInsert, fsLookup, h']
    · simp [dstInsert, fsLookup, hk, ih]

/-! Claim theorems. -/

/-- C1 (counterexample): with `overwrite_if_newer` and
`overwrite_if_size_differs` both enabled and `overwrite_all` disabled, for a
source file that is strictly newer (mtime 10 vs 0) but has the same byte
length (2 vs 2) as the existing destination entry, the claimed equivalence
"copy iff (newer OR sizes differ)" fails: the OR is true but the code
skips the entry (the two enabled checks combine with AND, not OR). -/
theorem C1_counterexample :
    ¬ (copyDecision ⟨false, true, true, [], []⟩ "/s/f"
         (SNode.file [0, 0] (some 10)) (some (FNode.file [1, 1] (some 0))) 0 = true
       ↔ ((10 : Nat) > 0 ∨ ([0, 0] : List Nat).length ≠ ([1, 1] : List Nat).length)) := by
  decide

/-- C1 (amended): with `overwrite_if_newer` and `overwrite_if_size_differs`
both enabled, `overwrite_all` disabled, the path filters passing and the
destination entry existing, the entry is copied iff the source is strictly
newer AND the byte lengths differ: each enabled check independently `continue`s
(skips) when it fails, so the two checks are combined with logical AND. -/
theorem C1_amended_checks_combine_with_and (cb : CopyBuilder) (pstr : String)
    (n : SNode) (d : FNode) (now : Nat)
    (hall : cb.overwrite_all = false)
    (hnew : cb.overwrite_if_newer = true)
    (hsz : cb.overwrite_if_size_differs = true)
    (hf : passesFilters cb pstr = true) :
    copyDecision cb pstr n (some d) now =
      (is_file_newer_meta (some n.meta) (some d.meta) now
        && is_filesize_different_meta (some n.meta) (some d.meta)) := by
  simp only [passesFilters, Bool.and_eq_true, Bool.not_eq_true',
    Bool.or_eq_true, List.isEmpty_eq_true] at hf
  obtain ⟨hex, hinc⟩ := hf
  cases hX : is_file_newer_meta (some n.meta) (some d.meta) now
    <;> cases hY : is_filesize_different_meta (some n.meta) (some d.meta)
    <;> rcases hinc with hinc | hinc
    <;> simp [copyDecision, hall, hnew, hsz, hex, hinc, hX, hY]

/-- C1 (witness for the amended theorem) at a concrete input: both flags
set, no filters, destination present, source newer and larger. -/
theorem C1_witness :
    copyDecision ⟨false, true, true, [], []⟩ "/s/f"
        (SNode.file [0, 0, 0] (some 10)) (some (FNode.file [1, 1] (some 0))) 0 =
      (is_file_newer_meta (some (SNode.file [0, 0, 0] (some 10)).meta)
          (some (FNode.file [1, 1] (some 0)).meta) 0
        && is_filesize_different_meta (some (SNode.file [0, 0, 0] (some 10)).meta)
          (some (FNode.file [1, 1] (some 0)).meta)) :=
  C1_amended_checks_combine_with_and ⟨false, true, true, [], []⟩ "/s/f"
    (SNode.file [0, 0, 0] (some 10)) (FNode.file [1, 1] (some 0)) 0
    rfl rfl rfl (by decide)

/-- C2 (counterexample): with `overwrite_all = true` but also
`overwrite_if_newer = true`, a destination entry that is not older than the
source (source mtime 0, destination mtime 10) is NOT copied: `overwrite_all`
only bypasses the early-out, it does not supersede the finer checks, so the
claimed "copy regardless of the settings of the finer flags" fails. -/
theorem C2_counterexample :
    ¬ (copyDecision ⟨true, true, false, [], []⟩ "/s/f"
         (SNode.file [0] (some 0)) (some (FNode.file [9, 9, 9] (some 10))) 0 = true) := by
  decide

/-- C2 (amended): with `overwrite_all = true` and the two finer flags
disabled, every non-directory entry passing the path filters is copied,
regardless of whether the destination exists and of its metadata. -/
theorem C2_amended_overwrite_all_alone (cb : CopyBuilder) (pstr : String)
    (n : SNode) (dn : Option FNode) (now : Nat)
    (hall : cb.overwrite_all = true)
    (hnew : cb.overwrite_if_newer = false)
    (hsz : cb.overwrite_if_size_differs = false)
    (hf : passesFilters cb pstr = true) :
    copyDecision cb pstr n dn now = true := by
  simp only [passesFilters, Bool.and_eq_true, Bool.not_eq_true',
    Bool.or_eq_true, List.isEmpty_eq_true] at hf
  obtain ⟨hex, hinc⟩ := hf
  rcases hinc with hinc | hinc <;> simp [copyDecision, hall, hnew, hsz, hex, hinc]

/-- C2 (witness for the amended theorem): `overwrite_all` alone copies over
an existing, newer, same-sized destination entry. -/
theorem C2_witness :
    copyDecision ⟨true, false, false, [], []⟩ "/s/f"
        (SNode.file [0] (some 0)) (some (FNode.file [7] (some 99))) 0 = true :=
  C2_amended_overwrite_all_alone ⟨true, false, false, [], []⟩ "/s/f"
    (SNode.file [0] (some 0)) (some (FNode.file [7] (some 99))) 0
    rfl rfl rfl (by decide)

/-- C3 (counterexample): a source entry whose metadata is readable but whose
modification time is NOT (`modified = none`), compared against a destination
with mtime 5 at clock 100: `is_file_newer` substitutes `SystemTime::now()`
for the missing source timestamp and returns `true`, refuting "whenever the
modification timestamp of either side is missing or unreadable, the check
returns false". -/
theorem C3_counterexample :
    (fsLookup [(["a"], FNode.file [] none), (["b"], FNode.file [] (some 5))] ["a"]).map
        (fun v => v.meta.modified) = some none
    ∧ is_file_newer [(["a"], FNode.file [] none), (["b"], FNode.file [] (some 5))]
        100 ["a"] ["b"] = true := by
  decide

/-- C3 (amended): `is_file_newer` returns `true` iff `lstat` succeeds on both
paths and the source's modification time — substituted with the current time
when unreadable — is strictly greater than the destination's — substituted
with the Unix epoch when unreadable; whenever `lstat` itself fails on either
side the check returns `false`. -/
theorem C3_amended_is_file_newer_characterization (fs : Fs) (now : Nat)
    (fileA fileB : List String) :
    is_file_newer fs now fileA fileB = true ↔
      ∃ na nb, fsLookup fs fileA = some na ∧ fsLookup fs fileB = some nb ∧
        na.meta.modified.getD now > nb.meta.modified.getD 0 := by
  cases ha : fsLookup fs fileA <;> cases hb : fsLookup fs fileB <;>
    simp [is_file_newer, is_file_newer_meta, ha, hb]

/-- C7: an entry whose textual path contains some exclude-filter string is
never copied — the decision is `false` and processing it leaves the
destination unchanged — whatever the include filters and overwrite flags
say (the exclude loop `continue`s before the include check and the
overwrite checks). -/
theorem C7_exclude_takes_precedence (cb : CopyBuilder) (absSource : List String)
    (now : Nat) (dst : Fs) (p : List String) (n : SNode)
    (hex : cb.exclude_filters.any (fun f => strContains (pathString p) f) = true)
    (hnd : n.isDir = false) :
    copyDecision cb (pathString p) n (fsLookup dst (p.drop absSource.length)) now = false
    ∧ processEntry cb absSource now dst p n = .ok dst := by
  have hdec : copyDecision cb (pathString p) n
      (fsLookup dst (p.drop absSource.length)) now = false := by
    simp [copyDecision, hex]
  refine ⟨hdec, ?_⟩
  simp [processEntry, hnd, hdec]

/-- C7 (witness): path `/s/etc/passwd` matches the exclude filter `"etc"`
and also the include filter `"passwd"`; it is skipped. -/
theorem C7_witness :
    copyDecision ⟨false, false, false, ["etc"], ["passwd"]⟩
        (pathString ["s", "etc", "passwd"]) (SNode.file [1] (some 0))
        (fsLookup [] (["s", "etc", "passwd"].drop (["s"] : List String).length)) 0 = false
    ∧ processEntry ⟨false, false, false, ["etc"], ["passwd"]⟩ ["s"] 0 []
        ["s", "etc", "passwd"] (SNode.file [1] (some 0)) = .ok [] :=
  C7_exclude_takes_precedence ⟨false, false, false, ["etc"], ["passwd"]⟩ ["s"] 0 []
    ["s", "etc", "passwd"] (SNode.file [1] (some 0)) (by decide) rfl

/-- C9: a directory entry bypasses the filters, the overwrite flags and the
early-skip fast path entirely: processing it is the same for any two
configurations, and when the destination path is absent the directory is
created there. -/
theorem C9_directories_ignore_filters (cb cb' : CopyBuilder)
    (absSource : List String) (now : Nat) (dst : Fs) (p : List String)
    (f : SForest) (m : Option Nat) (l : Nat) :
    processEntry cb absSource now dst p (SNode.dir f m l)
      = processEntry cb' absSource now dst p (SNode.dir f m l)
    ∧ (fsLookup dst (p.drop absSource.length) = none →
        processEntry cb absSource now dst p (SNode.dir f m l)
          = .ok (dstInsert dst (p.drop absSource.length) (FNode.dir (some now) 0))) := by
  constructor
  · simp [processEntry, SNode.isDir]
  · intro h
    simp [processEntry, SNode.isDir, h]

/-- C9 (witness): a directory at `/s/etc` matching the exclude filter
`"etc"` is still created in an empty destination, identically for a
configuration with filters and one without. -/
theorem C9_witness :
    processEntry ⟨false, false, false, ["etc"], []⟩ ["s"] 3 [] ["s", "etc"]
        (SNode.dir SForest.nil (some 0) 4)
      = processEntry ⟨true, true, true, [], ["bin"]⟩ ["s"] 3 [] ["s", "etc"]
        (SNode.dir SForest.nil (some 0) 4)
    ∧ (fsLookup [] ((["s", "etc"] : List String).drop (["s"] : List String).length) = none →
        processEntry ⟨false, false, false, ["etc"], []⟩ ["s"] 3 [] ["s", "etc"]
          (SNode.dir SForest.nil (some 0) 4)
          = .ok (dstInsert [] ((["s", "etc"] : List String).drop (["s"] : List String).length)
              (FNode.dir (some 3) 0))) :=
  C9_directories_ignore_filters ⟨false, false, false, ["etc"], []⟩
    ⟨true, true, true, [], ["bin"]⟩ ["s"] 3 [] ["s", "etc"] SForest.nil (some 0) 4

/-- C10: when the overwrite policy decides to copy a source symlink whose
destination path is already occupied, the existing entry is not removed
first: `std::os::unix::fs::symlink` fails with `EEXIST` and the whole run
aborts with that error. -/
theorem C10_symlink_overwrite_aborts (cb : CopyBuilder) (absSource : List String)
    (now : Nat) (dst : Fs) (p : List String) (t : String) (m : Option Nat)
    (v : FNode) (rest : List (List String × SNode))
    (hdec : copyDecision cb (pathString p) (SNode.symlink t m)
      (fsLookup dst (p.drop absSource.length)) now = true)
    (hex : fsLookup dst (p.drop absSource.length) = some v) :
    processEntry cb absSource now dst p (SNode.symlink t m)
      = .error ("File exists (os error 17): " ++ pathString (p.drop absSource.length))
    ∧ runEntries cb absSource now ((p, SNode.symlink t m) :: rest) dst
      = .error ("File exists (os error 17): " ++ pathString (p.drop absSource.length)) := by
  rw [hex] at hdec
  have h1 : processEntry cb absSource now dst p (SNode.symlink t m)
      = .error ("File exists (os error 17): " ++ pathString (p.drop absSource.length)) := by
    simp [processEntry, SNode.isDir, hex, hdec]
  exact ⟨h1, by simp [runEntries, h1]⟩

/-- C10 (witness): `overwrite_all` decides to re-copy the symlink `l`
whose destination (created by a previous run) exists; the run aborts with
`EEXIST`. -/
theorem C10_witness :
    processEntry ⟨true, false, false, [], []⟩ ["s"] 7
        [(["l"], FNode.symlink "old" (some 0))] ["s", "l"] (SNode.symlink "t" (some 1))
      = .error ("File exists (os error 17): "
          ++ pathString ((["s", "l"] : List String).drop (["s"] : List String).length))
    ∧ runEntries ⟨true, false, false, [], []⟩ ["s"] 7
        [(["s", "l"], SNode.symlink "t" (some 1))] [(["l"], FNode.symlink "old" (some 0))]
      = .error ("File exists (os error 17): "
          ++ pathString ((["s", "l"] : List String).drop (["s"] : List String).length)) :=
  C10_symlink_overwrite_aborts ⟨true, false, false, [], []⟩ ["s"] 7
    [(["l"], FNode.symlink "old" (some 0))] ["s", "l"] "t" (some 1)
    (FNode.symlink "old" (some 0)) [] (by decide) (by decide)

/-- C5 (counterexample): re-running over an unchanged source is not
idempotent for every setting of the overwrite flags. First leg: with
`overwrite_all = true` and a source containing one symlink, the first run
succeeds but the second aborts with `EEXIST`. Second leg: the same happens
with only `overwrite_if_newer = true` when the source symlink's modification
time (100) lies after the copy times (5, 7): the destination symlink written
at time 5 tests strictly older, the code decides to re-copy, and `symlink()`
fails on the occupied path. -/
theorem C5_counterexample :
    (CopyBuilder.run ⟨true, false, false, [], []⟩ ["s"] ["d"]
        (SNode.dir (SForest.cons "l" (SNode.symlink "t" (some 0)) SForest.nil) (some 0) 0)
        [] 5
      = .ok [([], FNode.dir (some 5) 0), (["l"], FNode.symlink "t" (some 5))]
    ∧ CopyBuilder.run ⟨true, false, false, [], []⟩ ["s"] ["d"]
        (SNode.dir (SForest.cons "l" (SNode.symlink "t" (some 0)) SForest.nil) (some 0) 0)
        [([], FNode.dir (some 5) 0), (["l"], FNode.symlink "t" (some 5))] 7
      = .error "File exists (os error 17): /l")
    ∧ (CopyBuilder.run ⟨false, true, false, [], []⟩ ["s"] ["d"]
        (SNode.dir (SForest.cons "l" (SNode.symlink "t" (some 100)) SForest.nil) (some 0) 0)
        [] 5
      = .ok [([], FNode.dir (some 5) 0), (["l"], FNode.symlink "t" (some 5))]
    ∧ CopyBuilder.run ⟨false, true, false, [], []⟩ ["s"] ["d"]
        (SNode.dir (SForest.cons "l" (SNode.symlink "t" (some 100)) SForest.nil) (some 0) 0)
        [([], FNode.dir (some 5) 0), (["l"], FNode.symlink "t" (some 5))] 7
      = .error "File exists (os error 17): /l") :=
  ⟨⟨rfl, rfl⟩, ⟨rfl, rfl⟩⟩

/-! Lemmas about the destination-skipping walk. -/

theorem walkForest_nil (skipP p : List String) :
    walkForest skipP p SForest.nil = [] := rfl

theorem walkForest_cons (skipP p : List String) (name : String) (child : SNode)
    (rest : SForest) :
    walkForest skipP p (SForest.cons name child rest)
      = walkNode skipP (p ++ [name]) child ++ walkForest skipP p rest := rfl

theorem walkNode_eq (skipP p : List String) (n : SNode) :
    walkNode skipP p n
      = if p = skipP then [] else (p, n) :: walkForest skipP p n.childForest := by
  cases n <;> rfl

theorem not_under_snoc (skipP p : List String) (name : String)
    (hp : ¬ skipP <+: p) (hne : ¬ p ++ [name] = skipP) : ¬ skipP <+: p ++ [name] := by
  intro hs
  rcases Nat.lt_or_ge skipP.length (p ++ [name]).length with hlt | hge
  · have hle : skipP.length ≤ p.length := by
      have : (p ++ [name]).length = p.length + 1 := by simp
      omega
    exact hp (List.prefix_of_prefix_length_le hs (List.prefix_append p [name]) hle)
  · exact hne (hs.eq_of_length (Nat.le_antisymm hs.length_le hge)).symm

mutual
theorem walkNode_mem_not_under (skipP p : List String) (n : SNode)
    (hp : ¬ skipP <+: p) :
    ∀ q m, (q, m) ∈ walkNode skipP p n → ¬ skipP <+: q := by
  intro q m hq
  rw [walkNode_eq] at hq
  by_cases hps : p = skipP
  · rw [if_pos hps] at hq
    exact absurd hq (List.not_mem_nil _)
  · rw [if_neg hps] at hq
    rcases List.mem_cons.mp hq with hq | hq
    · simp only [Prod.mk.injEq] at hq
      obtain ⟨rfl, rfl⟩ := hq
      exact hp
    · cases n with
      | dir f mm ll => exact walkForest_mem_not_under skipP p f hp q m hq
      | file c mm => exact absurd hq (List.not_mem_nil _)
      | symlink t mm => exact absurd hq (List.not_mem_nil _)
      | other mm ll => exact absurd hq (List.not_mem_nil _)

theorem walkForest_mem_not_under (skipP p : List String) (f : SForest)
    (hp : ¬ skipP <+: p) :
    ∀ q m, (q, m) ∈ walkForest skipP p f → ¬ skipP <+: q := by
  intro q m hq
  cases f with
  | nil => exact absurd hq (List.not_mem_nil _)
  | cons name child rest =>
    rw [walkForest_cons] at hq
    rcases List.mem_append.mp hq with hq | hq
    · by_cases hne : p ++ [name] = skipP
      · rw [walkNode_eq, if_pos hne] at hq
        exact absurd hq (List.not_mem_nil _)
      · exact walkNode_mem_not_under skipP (p ++ [name]) child
          (not_under_snoc skipP p name hp hne) q m hq
    · exact walkForest_mem_not_under skipP p rest hp q m hq
end

/-- C6: when the canonicalized destination lies inside the canonicalized
source tree, the filtered walk that `CopyBuilder::run` iterates over never
visits any entry whose path is, or lies under, the destination path: nothing
of the destination subtree is visited (hence nothing of it is copied). -/
theorem C6_walk_skips_destination (absSource absDest : List String) (src : SNode)
    (h : absSource <+: absDest) (q : List String) (n : SNode)
    (hq : (q, n) ∈ walkNode absDest absSource src) :
    ¬ absDest <+: q := by
  by_cases hps : absSource = absDest
  · rw [walkNode_eq, if_pos hps] at hq
    exact absurd hq (List.not_mem_nil _)
  · have hp : ¬ absDest <+: absSource := fun hs =>
      hps (h.eq_of_length (Nat.le_antisymm h.length_le hs.length_le))
    exact walkNode_mem_not_under absDest absSource src hp q n hq

/-- C6 (witness): with source `/s` containing the destination `/s/d`, the
root entry visited by the walk does not lie under the destination. -/
theorem C6_witness : ¬ (["s", "d"] : List String) <+: ["s"] :=
  C6_walk_skips_destination ["s"] ["s", "d"]
    (SNode.dir (SForest.cons "d" (SNode.dir SForest.nil none 0)
      (SForest.cons "e" (SNode.file [1] none) SForest.nil)) none 0)
    (by decide) ["s"]
    (SNode.dir (SForest.cons "d" (SNode.dir SForest.nil none 0)
      (SForest.cons "e" (SNode.file [1] none) SForest.nil)) none 0)
    (List.Mem.head _)

/-! Lemmas for the relativizer. -/

theorem diffLoop_nil_left (b : List Seg) :
    ∀ comps : List Seg, diffLoop comps [] b
      = some (comps ++ List.replicate b.length Seg.parent) := by
  induction b with
  | nil => intro comps; simp [diffLoop]
  | cons y b' ih =>
    intro comps
    rw [List.length_cons, List.replicate_succ]
    calc diffLoop comps [] (y :: b') = diffLoop (comps ++ [Seg.parent]) [] b' := rfl
      _ = some (comps ++ [Seg.parent] ++ List.replicate b'.length Seg.parent) := ih _
      _ = some (comps ++ (Seg.parent :: List.replicate b'.length Seg.parent)) := by
          rw [List.append_assoc]; rfl

theorem diffLoop_strip (pfx : List Seg) (a b : List Seg) :
    diffLoop [] (pfx ++ a) (pfx ++ b) = diffLoop [] a b := by
  induction pfx with
  | nil => rfl
  | cons x pfx' ih =>
    calc diffLoop [] (x :: (pfx' ++ a)) (x :: (pfx' ++ b))
        = diffLoop [] (pfx' ++ a) (pfx' ++ b) := by simp [diffLoop]
      _ = diffLoop [] a b := ih

theorem resolveFrom_append (d r1 r2 : List Seg) :
    resolveFrom d (r1 ++ r2) = resolveFrom (resolveFrom d r1) r2 :=
  List.foldl_append _ _ _ _

theorem resolveFrom_replicate_parent (k : Nat) :
    ∀ s : List Seg, resolveFrom s (List.replicate k Seg.parent)
      = s.take (s.length - k) := by
  induction k with
  | zero => intro s; simp [resolveFrom]
  | succ k ih =>
    intro s
    rw [List.replicate_succ]
    calc resolveFrom s (Seg.parent :: List.replicate k Seg.parent)
        = resolveFrom s.dropLast (List.replicate k Seg.parent) := rfl
      _ = s.dropLast.take (s.dropLast.length - k) := ih _
      _ = s.take (s.length - (k + 1)) := by
          rw [List.dropLast_eq_take, List.length_take, List.take_take]
          congr 1
          omega

theorem resolveFrom_pops (d e : List Seg) :
    resolveFrom (d ++ e) (List.replicate e.length Seg.parent) = d := by
  rw [resolveFrom_replicate_parent]
  rw [List.length_append]
  have h : d.length + e.length - e.length = d.length := by omega
  rw [h, List.take_left]

theorem resolveFrom_normals (cs : List Seg) (h : ∀ c ∈ cs, c.isNormal = true) :
    ∀ d : List Seg, resolveFrom d cs = d ++ cs := by
  induction cs with
  | nil => intro d; simp [resolveFrom]
  | cons c cs' ih =>
    intro d
    cases c with
    | normal s =>
      calc resolveFrom d (Seg.normal s :: cs')
          = resolveFrom (d ++ [Seg.normal s]) cs' := rfl
        _ = d ++ [Seg.normal s] ++ cs' := ih (fun c hc => h c (List.mem_cons_of_mem _ hc)) _
        _ = d ++ (Seg.normal s :: cs') := by rw [List.append_assoc]; rfl
    | parent => exact absurd (h _ (List.mem_cons_self _ _)) (by simp [Seg.isNormal])
    | cur => exact absurd (h _ (List.mem_cons_self _ _)) (by simp [Seg.isNormal])

theorem diffLoop_resolve (b : List Seg) (hb : ∀ c ∈ b, c.isNormal = true) :
    ∀ a : List Seg, (∀ c ∈ a, c.isNormal = true) → ∀ d : List Seg,
      ∃ r, diffLoop [] a b = some r ∧ resolveFrom (d ++ b) r = d ++ a := by
  induction b with
  | nil =>
    intro a ha d
    cases a with
    | nil => exact ⟨[], rfl, by simp [resolveFrom]⟩
    | cons x a' =>
      refine ⟨x :: a', rfl, ?_⟩
      rw [List.append_nil]
      exact resolveFrom_normals _ ha d
  | cons y b' ih =>
    intro a ha d
    cases a with
    | nil =>
      refine ⟨List.replicate (y :: b').length Seg.parent, ?_, ?_⟩
      · rw [diffLoop_nil_left]
        rfl
      · rw [resolveFrom_pops, List.append_nil]
    | cons x a' =>
      by_cases hxy : x = y
      · subst hxy
        obtain ⟨r, hr1, hr2⟩ := ih (fun c hc => hb c (List.mem_cons_of_mem _ hc))
          a' (fun c hc => ha c (List.mem_cons_of_mem _ hc)) (d ++ [x])
        refine ⟨r, ?_, ?_⟩
        · calc diffLoop [] (x :: a') (x :: b') = diffLoop [] a' b' := by simp [diffLoop]
            _ = some r := hr1
        · have e1 : d ++ x :: b' = (d ++ [x]) ++ b' := by simp
          have e2 : d ++ x :: a' = (d ++ [x]) ++ a' := by simp
          rw [e1, e2]
          exact hr2
      · obtain ⟨s, rfl⟩ : ∃ s, y = Seg.normal s := by
          cases y with
          | normal s => exact ⟨s, rfl⟩
          | parent => exact absurd (hb _ (List.mem_cons_self _ _)) (by simp [Seg.isNormal])
          | cur => exact absurd (hb _ (List.mem_cons_self _ _)) (by simp [Seg.isNormal])
        refine ⟨Seg.parent :: (List.replicate b'.length Seg.parent ++ x :: a'), ?_, ?_⟩
        · have hstep : diffLoop [] (x :: a') (Seg.normal s :: b')
              = some ([] ++ [Seg.parent] ++ b'.map (fun _ => Seg.parent) ++ x :: a') := by
            simp only [diffLoop]
            rw [if_neg (fun hh => hxy hh.2), if_neg (by simp), if_neg (by simp)]
          rw [hstep]
          congr 1
          simp [List.map_const']
        · have hsplit : Seg.parent :: (List.replicate b'.length Seg.parent ++ x :: a')
              = List.replicate (b'.length + 1) Seg.parent ++ (x :: a') := by
            simp [List.replicate_succ]
          rw [hsplit, resolveFrom_append]
          have hlen : (Seg.normal s :: b').length = b'.length + 1 := rfl
          have hp : resolveFrom (d ++ Seg.normal s :: b')
              (List.replicate (b'.length + 1) Seg.parent) = d := by
            rw [← hlen]
            exact resolveFrom_pops d (Seg.normal s :: b')
          rw [hp]
          exact resolveFrom_normals _ ha d

/-- C4: for a symlink inside the tree rooted at `R` (link path
`R ++ linkRel`, all-normal components) whose literal target is the absolute
path `T` (nonempty, all-normal components), `make_relative` rewrites the
target to a relative path that, resolved textually from the link's own
containing directory, yields exactly `R` joined with `T` stripped of its
leading separator, with `T`'s final component preserved exactly. -/
theorem C4_relativize_roundtrip (R : RPath) (hRabs : R.absolute = true)
    (linkRel : List Seg) (hlrne : linkRel ≠ []) (hlrn : ∀ c ∈ linkRel, c.isNormal = true)
    (T : List Seg) (hTne : T ≠ []) (hTn : ∀ c ∈ T, c.isNormal = true) :
    ∃ rel : List Seg,
      make_relative_step R ⟨true, R.comps ++ linkRel⟩ ⟨true, T⟩ = .ok ⟨false, rel⟩
      ∧ resolveFrom ((R.comps ++ linkRel).dropLast) rel = R.comps ++ T
      ∧ rel.getLast? = T.getLast? := by
  obtain ⟨t0, hT0⟩ : ∃ a, T.getLast? = some a := by
    cases h : T.getLast? with
    | none => exact absurd (List.getLast?_eq_none_iff.mp h) hTne
    | some a => exact ⟨a, rfl⟩
  obtain ⟨s, rfl⟩ : ∃ s, t0 = Seg.normal s := by
    have hmem : t0 ∈ T := List.mem_of_getLast?_eq_some hT0
    cases t0 with
    | normal s => exact ⟨s, rfl⟩
    | parent => exact absurd (hTn _ hmem) (by simp [Seg.isNormal])
    | cur => exact absurd (hTn _ hmem) (by simp [Seg.isNormal])
  obtain ⟨r, hr1, hr2⟩ := diffLoop_resolve linkRel.dropLast
    (fun c hc => hlrn c ((List.dropLast_sublist linkRel).subset hc))
    T.dropLast (fun c hc => hTn c ((List.dropLast_sublist T).subset hc)) R.comps
  have hne1 : R.comps ++ T ≠ [] := List.append_ne_nil_of_right_ne_nil _ hTne
  have hne2 : R.comps ++ linkRel ≠ [] := List.append_ne_nil_of_right_ne_nil _ hlrne
  have hdp : diff_paths ⟨true, (R.comps ++ T).dropLast⟩
      ⟨true, (R.comps ++ linkRel).dropLast⟩ = some ⟨false, r⟩ := by
    rw [diff_paths]
    rw [List.dropLast_append_of_ne_nil _ hTne, List.dropLast_append_of_ne_nil _ hlrne]
    simp only [bne_self_eq_false, Bool.false_eq_true, if_false, ite_false]
    rw [diffLoop_strip, hr1]
    rfl
  have hfn : RPath.fileName ⟨true, R.comps ++ T⟩ = some s := by
    rw [RPath.fileName]
    simp [hT0]
  refine ⟨r ++ [Seg.normal s], ?_, ?_, ?_⟩
  · rw [make_relative_step]
    simp only [hRabs, if_pos rfl, if_neg hne1, if_neg hne2, hdp, hfn, if_true]
  · rw [List.dropLast_append_of_ne_nil _ hlrne, resolveFrom_append, hr2]
    show (R.comps ++ T.dropLast) ++ [Seg.normal s] = R.comps ++ T
    rw [List.append_assoc, List.dropLast_append_getLast? _ hT0]
  · rw [List.getLast?_concat, hT0]

/-- C4 (witness): the spec scenario — under sysroot `R = /sysroot`, the
symlink `usr/lib/libfoo.so -> /lib/libfoo.so.1` is rewritten to a relative
target resolving to `/sysroot/lib/libfoo.so.1`, final component intact. -/
theorem C4_witness :
    ∃ rel : List Seg,
      make_relative_step ⟨true, [Seg.normal "sysroot"]⟩
          ⟨true, [Seg.normal "sysroot"]
            ++ [Seg.normal "usr", Seg.normal "lib", Seg.normal "libfoo.so"]⟩
          ⟨true, [Seg.normal "lib", Seg.normal "libfoo.so.1"]⟩ = .ok ⟨false, rel⟩
      ∧ resolveFrom (([Seg.normal "sysroot"]
            ++ [Seg.normal "usr", Seg.normal "lib", Seg.normal "libfoo.so"]).dropLast) rel
          = [Seg.normal "sysroot"] ++ [Seg.normal "lib", Seg.normal "libfoo.so.1"]
      ∧ rel.getLast? = ([Seg.normal "lib", Seg.normal "libfoo.so.1"] : List Seg).getLast? :=
  C4_relativize_roundtrip ⟨true, [Seg.normal "sysroot"]⟩ rfl
    [Seg.normal "usr", Seg.normal "lib", Seg.normal "libfoo.so"] (by decide) (by decide)
    [Seg.normal "lib", Seg.normal "libfoo.so.1"] (by decide) (by decide)

/-- C8 (counterexample): a case where `diff_paths` cannot compute a relative
path (the entry's parent contains a `..` that diverges from the target's
path): the run fails as claimed, but the error message is the fixed string
`relativizeErr`, which does not contain the offending symlink's path — the
error does not name the symlink. -/
theorem C8_counterexample :
    make_relative_step ⟨true, [Seg.normal "s"]⟩
        ⟨true, [Seg.normal "s", Seg.parent, Seg.normal "l"]⟩
        ⟨true, [Seg.normal "a", Seg.normal "f"]⟩ = .error relativizeErr
    ∧ strContains relativizeErr
        (rpathString ⟨true, [Seg.normal "s", Seg.parent, Seg.normal "l"]⟩) = false :=
  ⟨rfl, by decide⟩

/-- C8 (amended): whenever `diff_paths` cannot compute a relative path
between the symlink's containing directory and the reinterpreted target
location, the run fails with the error `relativizeErr` — a fixed message
that does not include the symlink's path. -/
theorem C8_amended_fixed_error (sysrootDir entryPath target : RPath)
    (habs : target.absolute = true)
    (hr : sysrootDir.comps ++ target.comps ≠ [])
    (he : entryPath.comps ≠ [])
    (hdiff : diff_paths ⟨sysrootDir.absolute, (sysrootDir.comps ++ target.comps).dropLast⟩
      ⟨entryPath.absolute, entryPath.comps.dropLast⟩ = none) :
    make_relative_step sysrootDir entryPath target = .error relativizeErr := by
  rw [make_relative_step]
  simp only [habs, if_pos rfl, if_neg hr, if_neg he, hdiff, if_true]

/-- C8 (witness for the amended theorem) at the counterexample's input. -/
theorem C8_witness :
    make_relative_step ⟨true, [Seg.normal "s"]⟩
        ⟨true, [Seg.normal "s", Seg.parent, Seg.normal "l"]⟩
        ⟨true, [Seg.normal "a", Seg.normal "f"]⟩ = .error relativizeErr :=
  C8_amended_fixed_error ⟨true, [Seg.normal "s"]⟩
    ⟨true, [Seg.normal "s", Seg.parent, Seg.normal "l"]⟩
    ⟨true, [Seg.normal "a", Seg.normal "f"]⟩ rfl (by decide) (by decide) (by decide)

/-! Lemmas for idempotence of `run` when `overwrite_all` and
`overwrite_if_newer` are disabled. -/

theorem copyDecision_noOverwrite_some (cb : CopyBuilder) (hno : cb.noOverwrite)
    (pstr : String) (n : SNode) (v : FNode) (now : Nat) :
    copyDecision cb pstr n (some v) now = false := by
  obtain ⟨h1, h2, h3⟩ := hno
  simp [copyDecision, h1, h2, h3]

theorem copyDecision_newer_off_time (cb : CopyBuilder)
    (hnew : cb.overwrite_if_newer = false) (pstr : String) (n : SNode)
    (dn : Option FNode) (now now' : Nat) :
    copyDecision cb pstr n dn now = copyDecision cb pstr n dn now' := by
  simp [copyDecision, hnew]

theorem copyDecision_len_eq (cb : CopyBuilder)
    (hall : cb.overwrite_all = false) (hnew : cb.overwrite_if_newer = false)
    (pstr : String) (n : SNode) (v : FNode) (now : Nat)
    (hlen : n.meta.len = v.meta.len) :
    copyDecision cb pstr n (some v) now = false := by
  cases hsz : cb.overwrite_if_size_differs with
  | false => exact copyDecision_noOverwrite_some cb ⟨hall, hnew, hsz⟩ pstr n v now
  | true => simp [copyDecision, hall, hnew, hsz, is_filesize_different_meta, hlen]

theorem processEntry_untouched (cb : CopyBuilder) (absSource : List String)
    (now : Nat) (dst dst2 : Fs) (p : List String) (n : SNode)
    (h : processEntry cb absSource now dst p n = .ok dst2)
    (k : List String) (hk : k ≠ p.drop absSource.length) :
    fsLookup dst2 k = fsLookup dst k := by
  cases n with
  | dir f m l =>
    rw [processEntry] at h
    simp only [SNode.isDir, Bool.not_true, Bool.false_eq_true, if_false, ite_false] at h
    cases h0 : fsLookup dst (p.drop absSource.length) with
    | none =>
      rw [h0] at h
      simp only [Except.ok.injEq] at h
      rw [← h]
      exact fsLookup_dstInsert_ne dst _ k _ hk
    | some w =>
      rw [h0] at h
      cases w with
      | dir mm ll => simp only [Except.ok.injEq] at h; rw [← h]
      | file c mm => exact absurd h (by simp)
      | symlink t mm => exact absurd h (by simp)
      | other mm ll => exact absurd h (by simp)
  | file c m =>
    rw [processEntry] at h
    simp only [SNode.isDir, Bool.not_false, if_true, ite_true] at h
    cases hdec : copyDecision cb (pathString p) (SNode.file c m)
        (fsLookup dst (p.drop absSource.length)) now with
    | false =>
      rw [hdec] at h
      simp only [Bool.false_eq_true, if_false, ite_false, Except.ok.injEq] at h
      rw [← h]
    | true =>
      rw [hdec] at h
      simp only [if_true, ite_true] at h
      cases h0 : fsLookup dst (p.drop absSource.length) with
      | none =>
        rw [h0] at h
        simp only [Except.ok.injEq] at h
        rw [← h]
        exact fsLookup_dstInsert_ne dst _ k _ hk
      | some w =>
        rw [h0] at h
        cases w with
        | dir mm ll => exact absurd h (by simp)
        | file cc mm =>
          simp only [Except.ok.injEq] at h
          rw [← h]
          exact fsLookup_dstInsert_ne dst _ k _ hk
        | symlink t mm =>
          simp only [Except.ok.injEq] at h
          rw [← h]
          exact fsLookup_dstInsert_ne dst _ k _ hk
        | other mm ll =>
          simp only [Except.ok.injEq] at h
          rw [← h]
          exact fsLookup_dstInsert_ne dst _ k _ hk
  | symlink t m =>
    rw [processEntry] at h
    simp only [SNode.isDir, Bool.not_false, if_true, ite_true] at h
    cases hdec : copyDecision cb (pathString p) (SNode.symlink t m)
        (fsLookup dst (p.drop absSource.length)) now with
    | false =>
      rw [hdec] at h
      simp only [Bool.false_eq_true, if_false, ite_false, Except.ok.injEq] at h
      rw [← h]
    | true =>
      rw [hdec] at h
      simp only [if_true, ite_true] at h
      cases h0 : fsLookup dst (p.drop absSource.length) with
      | none =>
        rw [h0] at h
        simp only [Except.ok.injEq] at h
        rw [← h]
        exact fsLookup_dstInsert_ne dst _ k _ hk
      | some w =>
        rw [h0] at h
        exact absurd h (by simp)
  | other m l =>
    rw [processEntry] at h
    simp only [SNode.isDir, Bool.not_false, if_true, ite_true] at h
    cases hdec : copyDecision cb (pathString p) (SNode.other m l)
        (fsLookup dst (p.drop absSource.length)) now with
    | false =>
      rw [hdec] at h
      simp only [Bool.false_eq_true, if_false, ite_false, Except.ok.injEq] at h
      rw [← h]
    | true =>
      rw [hdec] at h
      simp only [if_true, ite_true, Except.ok.injEq] at h
      rw [← h]

theorem runEntries_untouched (cb : CopyBuilder) (absSource : List String) (now : Nat) :
    ∀ (entries : List (List String × SNode)) (dst d1 : Fs),
      runEntries cb absSource now entries dst = .ok d1 →
      ∀ k, k ∉ entries.map (fun e => e.1.drop absSource.length) →
      fsLookup d1 k = fsLookup dst k := by
  intro entries
  induction entries with
  | nil =>
    intro dst d1 h k _
    simp only [runEntries, Except.ok.injEq] at h
    rw [← h]
  | cons e rest ih =>
    intro dst d1 h k hk
    obtain ⟨p, n⟩ := e
    simp only [List.map_cons, List.mem_cons, not_or] at hk
    obtain ⟨hk1, hk2⟩ := hk
    rw [runEntries] at h
    cases hpe : processEntry cb absSource now dst p n with
    | error err => rw [hpe] at h; exact absurd h (by simp)
    | ok dst2 =>
      rw [hpe] at h
      rw [ih dst2 d1 h k hk2]
      exact processEntry_untouched cb absSource now dst dst2 p n hpe k hk1

theorem processEntry_dir_keep (cb : CopyBuilder) (absSource : List String)
    (now : Nat) (dst dst2 : Fs) (p : List String) (n : SNode)
    (h : processEntry cb absSource now dst p n = .ok dst2)
    (k : List String) (mm : Option Nat) (ll : Nat)
    (hd : fsLookup dst k = some (FNode.dir mm ll)) :
    fsLookup dst2 k = some (FNode.dir mm ll) := by
  by_cases hk : k = p.drop absSource.length
  · subst hk
    cases n with
    | dir f m l =>
      rw [processEntry] at h
      simp only [SNode.isDir, Bool.not_true, Bool.false_eq_true, if_false, ite_false] at h
      rw [hd] at h
      simp only [Except.ok.injEq] at h
      rw [← h]
      exact hd
    | file c m =>
      rw [processEntry] at h
      simp only [SNode.isDir, Bool.not_false, if_true, ite_true] at h
      cases hdec : copyDecision cb (pathString p) (SNode.file c m)
          (fsLookup dst (p.drop absSource.length)) now with
      | false =>
        rw [hdec] at h
        simp only [Bool.false_eq_true, if_false, ite_false, Except.ok.injEq] at h
        rw [← h]
        exact hd
      | true =>
        rw [hdec] at h
        simp only [if_true, ite_true] at h
        rw [hd] at h
        exact absurd h (by simp)
    | symlink t m =>
      rw [processEntry] at h
      simp only [SNode.isDir, Bool.not_false, if_true, ite_true] at h
      cases hdec : copyDecision cb (pathString p) (SNode.symlink t m)
          (fsLookup dst (p.drop absSource.length)) now with
      | false =>
        rw [hdec] at h
        simp only [Bool.false_eq_true, if_false, ite_false, Except.ok.injEq] at h
        rw [← h]
        exact hd
      | true =>
        rw [hdec] at h
        simp only [if_true, ite_true] at h
        rw [hd] at h
        exact absurd h (by simp)
    | other m l =>
      rw [processEntry] at h
      simp only [SNode.isDir, Bool.not_false, if_true, ite_true] at h
      cases hdec : copyDecision cb (pathString p) (SNode.other m l)
          (fsLookup dst (p.drop absSource.length)) now with
      | false =>
        rw [hdec] at h
        simp only [Bool.false_eq_true, if_false, ite_false, Except.ok.injEq] at h
        rw [← h]
        exact hd
      | true =>
        rw [hdec] at h
        simp only [if_true, ite_true, Except.ok.injEq] at h
        rw [← h]
        exact hd
  · rw [processEntry_untouched cb absSource now dst dst2 p n h k hk]
    exact hd

theorem runEntries_dir_keep (cb : CopyBuilder) (absSource : List String) (now : Nat) :
    ∀ (entries : List (List String × SNode)) (dst d1 : Fs),
      runEntries cb absSource now entries dst = .ok d1 →
      ∀ k mm ll, fsLookup dst k = some (FNode.dir mm ll) →
      fsLookup d1 k = some (FNode.dir mm ll) := by
  intro entries
  induction entries with
  | nil =>
    intro dst d1 h k mm ll hd
    simp only [runEntries, Except.ok.injEq] at h
    rw [← h]
    exact hd
  | cons e rest ih =>
    intro dst d1 h k mm ll hd
    obtain ⟨p, n⟩ := e
    rw [runEntries] at h
    cases hpe : processEntry cb absSource now dst p n with
    | error err => rw [hpe] at h; exact absurd h (by simp)
    | ok dst2 =>
      rw [hpe] at h
      exact ih dst2 d1 h k mm ll
        (processEntry_dir_keep cb absSource now dst dst2 p n hpe k mm ll hd)

theorem ensureDestDir_root_dir (dst dst1 : Fs) (now : Nat)
    (h : ensureDestDir dst now = .ok dst1) :
    ∃ mm ll, fsLookup dst1 [] = some (FNode.dir mm ll) := by
  rw [ensureDestDir] at h
  cases h0 : fsLookup dst [] with
  | none =>
    rw [h0] at h
    simp only [Except.ok.injEq] at h
    rw [← h]
    exact ⟨some now, 0, fsLookup_dstInsert_self _ _ _⟩
  | some w =>
    rw [h0] at h
    cases w with
    | dir mm ll =>
      simp only [Except.ok.injEq] at h
      rw [← h]
      exact ⟨mm, ll, h0⟩
    | file c mm => exact absurd h (by simp)
    | symlink t mm => exact absurd h (by simp)
    | other mm ll => exact absurd h (by simp)

theorem ensureDestDir_of_dir (dst : Fs) (now : Nat) (mm : Option Nat) (ll : Nat)
    (h : fsLookup dst [] = some (FNode.dir mm ll)) :
    ensureDestDir dst now = .ok dst := by
  rw [ensureDestDir, h]

theorem processEntry_second_run (cb : CopyBuilder)
    (hall : cb.overwrite_all = false) (hnew : cb.overwrite_if_newer = false)
    (absSource : List String) (now now2 : Nat) (dst dst2 d1 : Fs)
    (p : List String) (n : SNode)
    (h : processEntry cb absSource now dst p n = .ok dst2)
    (hkeep : fsLookup d1 (p.drop absSource.length)
      = fsLookup dst2 (p.drop absSource.length)) :
    processEntry cb absSource now2 d1 p n = .ok d1 := by
  cases n with
  | dir f m l =>
    rw [processEntry] at h ⊢
    simp only [SNode.isDir, Bool.not_true, Bool.false_eq_true, if_false, ite_false] at h ⊢
    cases h0 : fsLookup dst (p.drop absSource.length) with
    | none =>
      rw [h0] at h
      simp only [Except.ok.injEq] at h
      have h1 : fsLookup d1 (p.drop absSource.length) = some (FNode.dir (some now) 0) := by
        rw [hkeep, ← h]
        exact fsLookup_dstInsert_self _ _ _
      rw [h1]
    | some w =>
      rw [h0] at h
      cases w with
      | dir mm ll =>
        simp only [Except.ok.injEq] at h
        have h1 : fsLookup d1 (p.drop absSource.length) = some (FNode.dir mm ll) := by
          rw [hkeep, ← h]
          exact h0
        rw [h1]
      | file c mm => exact absurd h (by simp)
      | symlink t mm => exact absurd h (by simp)
      | other mm ll => exact absurd h (by simp)
  | file c m =>
    rw [processEntry] at h ⊢
    simp only [SNode.isDir, Bool.not_false, if_true, ite_true] at h ⊢
    cases hdec : copyDecision cb (pathString p) (SNode.file c m)
        (fsLookup dst (p.drop absSource.length)) now with
    | false =>
      rw [hdec] at h
      simp only [Bool.false_eq_true, if_false, ite_false, Except.ok.injEq] at h
      have h1 : fsLookup d1 (p.drop absSource.length)
          = fsLookup dst (p.drop absSource.length) := by rw [hkeep, ← h]
      have h2 : copyDecision cb (pathString p) (SNode.file c m)
          (fsLookup d1 (p.drop absSource.length)) now2 = false := by
        rw [h1, copyDecision_newer_off_time cb hnew _ _ _ now2 now, hdec]
      rw [h2]
      simp
    | true =>
      rw [hdec] at h
      simp only [if_true, ite_true] at h
      have h1 : fsLookup d1 (p.drop absSource.length) = some (FNode.file c (some now)) := by
        cases h0 : fsLookup dst (p.drop absSource.length) with
        | none =>
          rw [h0] at h
          simp only [Except.ok.injEq] at h
          rw [hkeep, ← h]
          exact fsLookup_dstInsert_self _ _ _
        | some w =>
          rw [h0] at h
          cases w with
          | dir mm ll => exact absurd h (by simp)
          | file cc mm =>
            simp only [Except.ok.injEq] at h
            rw [hkeep, ← h]
            exact fsLookup_dstInsert_self _ _ _
          | symlink t mm =>
            simp only [Except.ok.injEq] at h
            rw [hkeep, ← h]
            exact fsLookup_dstInsert_self _ _ _
          | other mm ll =>
            simp only [Except.ok.injEq] at h
            rw [hkeep, ← h]
            exact fsLookup_dstInsert_self _ _ _
      have h2 : copyDecision cb (pathString p) (SNode.file c m)
          (fsLookup d1 (p.drop absSource.length)) now2 = false := by
        rw [h1]
        exact copyDecision_len_eq cb hall hnew _ _ _ _ rfl
      rw [h2]
      simp
  | symlink t m =>
    rw [processEntry] at h ⊢
    simp only [SNode.isDir, Bool.not_false, if_true, ite_true] at h ⊢
    cases hdec : copyDecision cb (pathString p) (SNode.symlink t m)
        (fsLookup dst (p.drop absSource.length)) now with
    | false =>
      rw [hdec] at h
      simp only [Bool.false_eq_true, if_false, ite_false, Except.ok.injEq] at h
      have h1 : fsLookup d1 (p.drop absSource.length)
          = fsLookup dst (p.drop absSource.length) := by rw [hkeep, ← h]
      have h2 : copyDecision cb (pathString p) (SNode.symlink t m)
          (fsLookup d1 (p.drop absSource.length)) now2 = false := by
        rw [h1, copyDecision_newer_off_time cb hnew _ _ _ now2 now, hdec]
      rw [h2]
      simp
    | true =>
      rw [hdec] at h
      simp only [if_true, ite_true] at h
      have h1 : fsLookup d1 (p.drop absSource.length)
          = some (FNode.symlink t (some now)) := by
        cases h0 : fsLookup dst (p.drop absSource.length) with
        | none =>
          rw [h0] at h
          simp only [Except.ok.injEq] at h
          rw [hkeep, ← h]
          exact fsLookup_dstInsert_self _ _ _
        | some w =>
          rw [h0] at h
          exact absurd h (by simp)
      have h2 : copyDecision cb (pathString p) (SNode.symlink t m)
          (fsLookup d1 (p.drop absSource.length)) now2 = false := by
        rw [h1]
        exact copyDecision_len_eq cb hall hnew _ _ _ _ rfl
      rw [h2]
      simp
  | other m l =>
    rw [processEntry]
    simp only [SNode.isDir, Bool.not_false, if_true, ite_true]
    cases hdec2 : copyDecision cb (pathString p) (SNode.other m l)
        (fsLookup d1 (p.drop absSource.length)) now2 with
    | false => simp
    | true => simp

theorem runEntries_second_run (cb : CopyBuilder)
    (hall : cb.overwrite_all = false) (hnew : cb.overwrite_if_newer = false)
    (absSource : List String) (now now2 : Nat) :
    ∀ (entries : List (List String × SNode)) (dst d1 : Fs),
      (entries.map (fun e => e.1.drop absSource.length)).Nodup →
      runEntries cb absSource now entries dst = .ok d1 →
      runEntries cb absSource now2 entries d1 = .ok d1 := by
  intro entries
  induction entries with
  | nil =>
    intro dst d1 _ h
    simp only [runEntries, Except.ok.injEq] at h ⊢
  | cons e rest ih =>
    intro dst d1 hnd h
    obtain ⟨p, n⟩ := e
    simp only [List.map_cons, List.nodup_cons] at hnd
    obtain ⟨hnotin, hnd2⟩ := hnd
    rw [runEntries] at h ⊢
    cases hpe : processEntry cb absSource now dst p n with
    | error err => rw [hpe] at h; exact absurd h (by simp)
    | ok dst2 =>
      rw [hpe] at h
      have hkeep : fsLookup d1 (p.drop absSource.length)
          = fsLookup dst2 (p.drop absSource.length) :=
        runEntries_untouched cb absSource now rest dst2 d1 h _ hnotin
      rw [processEntry_second_run cb hall hnew absSource now now2 dst dst2 d1 p n hpe hkeep]
      exact ih dst2 d1 hnd2 h

/-- C5 (amended): with `overwrite_all` and `overwrite_if_newer` disabled —
`overwrite_if_size_differs` may be on or off — and for every filter
configuration, if a run succeeds (over a walk whose entries have pairwise
distinct destination paths, as the entries of a real directory tree do),
then re-running with identical flags over the unchanged source succeeds and
returns the destination tree exactly as after the first run: every entry the
first run copied now has equal size and is skipped, and every entry it
skipped is skipped again. -/
theorem C5_amended_run_idem (cb : CopyBuilder)
    (hall : cb.overwrite_all = false) (hnew : cb.overwrite_if_newer = false)
    (absSource absDest : List String) (src : SNode) (dst d1 : Fs) (now now2 : Nat)
    (hnd : ((walkNode absDest absSource src).map
      (fun e => e.1.drop absSource.length)).Nodup)
    (h : cb.run absSource absDest src dst now = .ok d1) :
    cb.run absSource absDest src d1 now2 = .ok d1 := by
  rw [CopyBuilder.run] at h ⊢
  cases he : ensureDestDir dst now with
  | error e => rw [he] at h; exact absurd h (by simp)
  | ok dst1 =>
    rw [he] at h
    obtain ⟨mm, ll, hdir⟩ := ensureDestDir_root_dir dst dst1 now he
    have hd1dir : fsLookup d1 [] = some (FNode.dir mm ll) :=
      runEntries_dir_keep cb absSource now _ dst1 d1 h [] mm ll hdir
    rw [ensureDestDir_of_dir d1 now2 mm ll hd1dir]
    exact runEntries_second_run cb hall hnew absSource now now2 _ dst1 d1 hnd h

/-- C5 (witness for the amended theorem), with `overwrite_if_size_differs`
enabled: a source with a file and a symlink is copied into an empty
destination at time 5; re-running at time 9 finds every size equal and
returns the destination tree unchanged. -/
theorem C5_witness :
    CopyBuilder.run ⟨false, false, true, [], []⟩ ["s"] ["d"]
        (SNode.dir (SForest.cons "f" (SNode.file [1, 2] (some 1))
          (SForest.cons "l" (SNode.symlink "t" (some 1)) SForest.nil)) (some 1) 0)
        [([], FNode.dir (some 5) 0), (["f"], FNode.file [1, 2] (some 5)),
         (["l"], FNode.symlink "t" (some 5))] 9
      = .ok [([], FNode.dir (some 5) 0), (["f"], FNode.file [1, 2] (some 5)),
             (["l"], FNode.symlink "t" (some 5))] :=
  C5_amended_run_idem ⟨false, false, true, [], []⟩ rfl rfl ["s"] ["d"]
    (SNode.dir (SForest.cons "f" (SNode.file [1, 2] (some 1))
      (SForest.cons "l" (SNode.symlink "t" (some 1)) SForest.nil)) (some 1) 0)
    [] _ 5 9 (by decide) rfl
